import Mathlib

/-!
Verification of the git-spice core against its specification.

The development shallowly embeds the relevant parts of the source:

* `internal/state/store.go` — the branch-state store (`Store.Update`,
  `Store.Lookup`) over a key/value storage backend;
* `branch_submit.go` — the submit state machine of `branch submit`;
* the `branch fold` command;
* the `branch create` command (`--below` / `--insert` modes).

Stateful code is embedded as pure state-passing functions; calls with
externally visible effects (pushes, forge calls, store commits, git
mutations) are additionally recorded in an event trace so that ordering
and frame properties can be stated.
-/

namespace GitSpice

/-! ## Storage backend and branch-state store (internal/state/store.go) -/

/-- JSON sub-record `branchStateBase` of store.go: the base branch name and
its last known hash. -/
structure branchStateBase where
  name : String
  hash : String
deriving DecidableEq, Repr

/-- JSON record `branchState` stored per branch under `branches/<name>`. -/
structure branchState where
  base : branchStateBase
  pr : Int
deriving DecidableEq, Repr

/-- The Go zero value of `branchState`. -/
def branchStateZero : branchState := ⟨⟨"", ""⟩, 0⟩

/-- A single `setRequest` forwarded to the storage backend. -/
structure setRequest where
  key : String
  val : branchState
deriving DecidableEq, Repr

/-- The Go zero value of `setRequest`, as produced by
`make([]setRequest, n)`. -/
def zeroSetRequest : setRequest := ⟨"", branchStateZero⟩

/-- A snapshot of the storage backend: the branch-state values by key. -/
abbrev Backend := List (String × branchState)

/-- Backend `Get`: the value stored at a key, if any. -/
def backendGet : Backend → String → Option branchState
  | [], _ => none
  | kv :: rest, k => if kv.1 = k then some kv.2 else backendGet rest k

/-- Applying one `setRequest` to a backend snapshot: replace the value at
the key, or add the entry if the key is absent. -/
def backendSet : Backend → setRequest → Backend
  | [], s => [(s.key, s.val)]
  | kv :: rest, s => if kv.1 = s.key then (s.key, s.val) :: rest else kv :: backendSet rest s

/-- Applying one delete to a backend snapshot. -/
def backendDel : Backend → String → Backend
  | [], _ => []
  | kv :: rest, k => if kv.1 = k then backendDel rest k else kv :: backendDel rest k

/-- Backend `Update`: one atomic commit applying the deletes and then the
sets of an update request. -/
def backendUpdate (σ : Backend) (sets : List setRequest) (dels : List String) : Backend :=
  sets.foldl backendSet (dels.foldl backendDel σ)

/-- The `Store` of store.go; its persistent identity is the trunk name. -/
structure Store where
  trunk : String
deriving DecidableEq, Repr

/-- `_branchesDir` of store.go. -/
def branchesDir : String := "branches"

/-- `Store.branchJSON`: the backend key of a branch's record. -/
def Store.branchJSON (_ : Store) (name : String) : String :=
  if name = "" then branchesDir else branchesDir ++ "/" ++ name

/-- `UpsertRequest` of store.go. Empty `base`/`baseHash` and `none` for
`pr` mean "keep the current value". -/
structure UpsertRequest where
  name : String := ""
  base : String := ""
  baseHash : String := ""
  pr : Option Int := none
deriving DecidableEq, Repr

/-- `UpdateRequest` of store.go. -/
structure UpdateRequest where
  upserts : List UpsertRequest := []
  deletes : List String := []
  message : String := ""
deriving DecidableEq, Repr

/-- `LookupResponse` of store.go. -/
structure LookupResponse where
  name : String
  base : String
  baseHash : String
  pr : Int
deriving DecidableEq, Repr

/-- `Store.Lookup`: read a branch's record. With a pure backend the only
possible failure is `ErrNotExist`, embedded as `none`. -/
def Store.lookup (s : Store) (σ : Backend) (name : String) : Option LookupResponse :=
  match backendGet σ (s.branchJSON name) with
  | none => none
  | some st => some ⟨name, st.base.name, st.base.hash, st.pr⟩

/-- The record value computed by one iteration of the `Store.Update` loop:
start from the previous record (the zero value if the branch does not exist
yet, read from the pre-update backend via `s.Lookup` as the Go code does)
and overwrite exactly the fields the upsert provides. -/
def Store.mergedState (s : Store) (σ : Backend) (r : UpsertRequest) : branchState :=
  let prev : branchState :=
    match s.lookup σ r.name with
    | some p => ⟨⟨p.base, p.baseHash⟩, p.pr⟩
    | none => branchStateZero
  { base := { name := if r.base = "" then prev.base.name else r.base
            , hash := if r.baseHash = "" then prev.base.hash else r.baseHash }
  , pr := match r.pr with
          | some n => n
          | none => prev.pr }

/-- The per-upsert body of the loop of `Store.Update`: validate the upsert
and produce the `setRequest` that will be appended to the outgoing list. -/
def Store.applyUpsert (s : Store) (σ : Backend) (r : UpsertRequest) : Except String setRequest :=
  if r.name = "" then .error "branch name is required"
  else if r.name = s.trunk then .error "trunk branch is not managed by gs"
  else if (s.mergedState σ r).base.name = "" then .error "would have no base"
  else .ok ⟨s.branchJSON r.name, s.mergedState σ r⟩

/-- The loop of `Store.Update`: `sets = append(sets, ...)` over the
upserts, starting from the accumulator `acc`. -/
def Store.appendSets (s : Store) (σ : Backend) : List UpsertRequest → List setRequest → Except String (List setRequest)
  | [], acc => .ok acc
  | r :: rest, acc =>
    match s.applyUpsert σ r with
    | .error e => .error e
    | .ok sr => s.appendSets σ rest (acc ++ [sr])

/-- The set list that `Store.Update` forwards to the storage backend:
the accumulator starts as `make([]setRequest, len(req.Upserts))`, that is,
a list of `len(req.Upserts)` zero values. -/
def Store.updateSets (s : Store) (σ : Backend) (us : List UpsertRequest) : Except String (List setRequest) :=
  s.appendSets σ us (List.replicate us.length zeroSetRequest)

/-- `Store.Update`: validate and merge all upserts against the current
snapshot, then commit one atomic backend update. -/
def Store.update (s : Store) (σ : Backend) (req : UpdateRequest) : Except String Backend :=
  match s.updateSets σ req.upserts with
  | .error e => .error e
  | .ok sets => .ok (backendUpdate σ sets req.deletes)

/-- The backend state after a `Store.Update` call: unchanged if the call
returned an error. -/
def Store.updatePost (s : Store) (σ : Backend) (req : UpdateRequest) : Backend :=
  match s.update σ req with
  | .ok σ2 => σ2
  | .error _ => σ

/-- Whether an `Except` value is a success. -/
def exOk : Except String α → Bool
  | .ok _ => true
  | .error _ => false

/-- Error-propagating map over a list, mirroring a Go loop that returns on
the first failing element. -/
def exMap (f : α → Except String β) : List α → Except String (List β)
  | [] => .ok []
  | a :: as =>
    match f a with
    | .error e => .error e
    | .ok b =>
      match exMap f as with
      | .error e => .error e
      | .ok bs => .ok (b :: bs)

/-! ### Backend lemmas -/

theorem backendGet_set_self (σ : Backend) (s : setRequest) :
    backendGet (backendSet σ s) s.key = some s.val := by
  induction σ with
  | nil => simp [backendSet, backendGet]
  | cons kv rest ih =>
    by_cases h : kv.1 = s.key
    · simp [backendSet, backendGet, h]
    · simp [backendSet, backendGet, h, ih]

theorem backendGet_set_other (σ : Backend) (s : setRequest) (k : String) (h : k ≠ s.key) :
    backendGet (backendSet σ s) k = backendGet σ k := by
  induction σ with
  | nil =>
    simp only [backendSet, backendGet]
    rw [if_neg (fun hk => h hk.symm)]
  | cons kv rest ih =>
    by_cases hk : kv.1 = s.key
    · simp only [backendSet, if_pos hk, backendGet]
      have hne : kv.1 ≠ k := by rw [hk]; exact fun hh => h hh.symm
      rw [if_neg (fun hh => h hh.symm), if_neg hne]
    · simp only [backendSet, if_neg hk]
      by_cases hkv : kv.1 = k
      · simp [backendGet, hkv]
      · simp [backendGet, hkv, ih]

/-! ### Lemmas about the update loop -/

theorem Store.appendSets_eq (s : Store) (σ : Backend) :
    ∀ (us : List UpsertRequest) (acc : List setRequest),
      s.appendSets σ us acc =
        match exMap (s.applyUpsert σ) us with
        | .error e => .error e
        | .ok l => .ok (acc ++ l) := by
  intro us
  induction us with
  | nil => intro acc; simp [Store.appendSets, exMap]
  | cons r rest ih =>
    intro acc
    simp only [Store.appendSets, exMap]
    cases h : s.applyUpsert σ r with
    | error e => simp
    | ok sr =>
      simp only [ih (acc ++ [sr])]
      cases hrest : exMap (s.applyUpsert σ) rest with
      | error e => simp
      | ok l => simp [List.append_assoc]

theorem exMap_length (f : α → Except String β) :
    ∀ (l : List α) (bs : List β), exMap f l = .ok bs → bs.length = l.length := by
  intro l
  induction l with
  | nil => intro bs h; simp [exMap] at h; simp [← h]
  | cons a as ih =>
    intro bs h
    simp only [exMap] at h
    cases hf : f a with
    | error e => rw [hf] at h; exact absurd h (by simp)
    | ok b =>
      rw [hf] at h
      cases hrest : exMap f as with
      | error e => rw [hrest] at h; exact absurd h (by simp)
      | ok l2 =>
        rw [hrest] at h
        cases h
        simp [ih l2 hrest]

theorem exMap_error_of_mem (f : α → Except String β) :
    ∀ (l : List α) (a : α), a ∈ l → (∃ e, f a = .error e) →
      ∃ e, exMap f l = .error e := by
  intro l
  induction l with
  | nil => intro a ha; cases ha
  | cons x xs ih =>
    intro a ha hf
    simp only [exMap]
    cases hx : f x with
    | error e => exact ⟨e, rfl⟩
    | ok b =>
      have hax : a ≠ x := by
        intro h
        obtain ⟨e, he⟩ := hf
        rw [h, hx] at he
        cases he
      have hmem : a ∈ xs := by
        cases ha with
        | head => exact absurd rfl hax
        | tail _ h => exact h
      obtain ⟨e, he⟩ := ih a hmem hf
      exact ⟨e, by rw [he]⟩

/-! ### Branch-key lemmas -/

theorem branchJSON_ne_empty (s : Store) (n : String) : s.branchJSON n ≠ "" := by
  unfold Store.branchJSON
  split
  · decide
  · intro h
    have hd := congrArg String.data h
    simp only [String.data_append] at hd
    simp at hd

theorem branchJSON_inj (s : Store) (a b : String) (ha : a ≠ "") (hb : b ≠ "")
    (h : s.branchJSON a = s.branchJSON b) : a = b := by
  unfold Store.branchJSON at h
  rw [if_neg ha, if_neg hb] at h
  have hd := congrArg String.data h
  simp only [String.data_append] at hd
  exact String.ext (List.append_cancel_left hd)

/-! ### Characterizations of `Store.Update` -/

theorem Store.applyUpsert_ok (s : Store) (σ : Backend) (r : UpsertRequest)
    (h1 : r.name ≠ "") (h2 : r.name ≠ s.trunk)
    (h3 : (s.mergedState σ r).base.name ≠ "") :
    s.applyUpsert σ r = .ok ⟨s.branchJSON r.name, s.mergedState σ r⟩ := by
  unfold Store.applyUpsert
  rw [if_neg h1, if_neg h2, if_neg h3]

theorem Store.applyUpsert_trunk_error (s : Store) (σ : Backend) (r : UpsertRequest)
    (h : r.name = s.trunk) : ∃ e, s.applyUpsert σ r = .error e := by
  unfold Store.applyUpsert
  by_cases h0 : r.name = ""
  · rw [if_pos h0]; exact ⟨_, rfl⟩
  · rw [if_neg h0, if_pos h]; exact ⟨_, rfl⟩

/-- A single-upsert `Store.Update` commits exactly two set requests: the
zero value left over from `make`, then the merged record. -/
theorem Store.update_single (s : Store) (σ : Backend) (r : UpsertRequest)
    (dels : List String) (msg : String) :
    s.update σ ⟨[r], dels, msg⟩ =
      match s.applyUpsert σ r with
      | .error e => .error e
      | .ok sr => .ok (backendUpdate σ [zeroSetRequest, sr] dels) := by
  unfold Store.update Store.updateSets Store.appendSets
  cases h : s.applyUpsert σ r with
  | error e => simp [List.replicate, h]
  | ok sr => simp [List.replicate, h, Store.appendSets]

theorem backendGet_update_two_self (σ : Backend) (sr : setRequest) (dels : List String) :
    backendGet (backendUpdate σ [zeroSetRequest, sr] dels) sr.key = some sr.val := by
  unfold backendUpdate
  simp only [List.foldl]
  exact backendGet_set_self _ sr

/-! ## Claim C3 -/

/-- Claim C3: for every `Store.Update` whose request passes validation with
`n ≥ 1` upserts, the set list forwarded to the storage backend has length
`2n` rather than `n`: the list is allocated with `make([]setRequest, n)`
and then appended to, so the `n` zero-valued entries precede the `n`
intended entries in every committed update. -/
theorem c3_update_sets_doubled (s : Store) (σ : Backend) (req : UpdateRequest)
    (sets : List setRequest)
    (h : s.updateSets σ req.upserts = .ok sets) (hn : 1 ≤ req.upserts.length) :
    sets.length = 2 * req.upserts.length ∧
    sets.take req.upserts.length = List.replicate req.upserts.length zeroSetRequest ∧
    exMap (s.applyUpsert σ) req.upserts = .ok (sets.drop req.upserts.length) ∧
    s.update σ req = .ok (backendUpdate σ sets req.deletes) := by
  have heq := s.appendSets_eq σ req.upserts (List.replicate req.upserts.length zeroSetRequest)
  unfold Store.updateSets at h
  rw [heq] at h
  cases hm : exMap (s.applyUpsert σ) req.upserts with
  | error e => rw [hm] at h; cases h
  | ok l =>
    rw [hm] at h
    cases h
    have hl := exMap_length (s.applyUpsert σ) req.upserts l hm
    refine ⟨?_, ?_, ?_, ?_⟩
    · simp [hl]; omega
    · exact List.take_left' (by simp)
    · rw [List.drop_left' (by simp)]
    · unfold Store.update Store.updateSets
      rw [heq, hm]

def storeMain : Store := ⟨"main"⟩

def usC3 : List UpsertRequest := [{ name := "feat-a", base := "main", baseHash := "h1" }]

def reqC3 : UpdateRequest := { upserts := usC3, message := "m" }

def setsC3 : List setRequest := [zeroSetRequest, ⟨"branches/feat-a", ⟨⟨"main", "h1"⟩, 0⟩⟩]

theorem c3_witness :
    setsC3.length = 2 * reqC3.upserts.length ∧
    setsC3.take reqC3.upserts.length = List.replicate reqC3.upserts.length zeroSetRequest ∧
    exMap (storeMain.applyUpsert []) reqC3.upserts = .ok (setsC3.drop reqC3.upserts.length) ∧
    storeMain.update [] reqC3 = .ok (backendUpdate [] setsC3 reqC3.deletes) :=
  c3_update_sets_doubled storeMain [] reqC3 setsC3 (by rfl) (by decide)

/-! ## Claim C4 -/

def reqC4 : UpdateRequest :=
  { upserts := [{ name := "feat-a", base := "feat-a", baseHash := "h1" }], message := "m" }

/-- Claim C4 counterexample: `Store.Update` does not reject an upsert whose
base chain revisits the upserted branch's own name. The self-cycle upsert
`{name: feat-a, base: feat-a}` succeeds, changes the store, and the stored
record's base is the branch itself. -/
theorem c4_counterexample :
    exOk (storeMain.update [] reqC4) = true ∧
    storeMain.updatePost [] reqC4 ≠ [] ∧
    storeMain.lookup (storeMain.updatePost [] reqC4) "feat-a" =
      some ⟨"feat-a", "feat-a", "h1", 0⟩ := by
  refine ⟨by decide, by decide, by decide⟩

/-- Claim C4 (amended): `Store.Update` performs no acyclicity check. An
update whose upsert's base chain revisits the upserted branch's own name
(here a direct self-cycle, `base = name`) succeeds whenever the upsert
passes the local validation (non-empty name distinct from trunk), and the
cycle is recorded in the store. -/
theorem c4_amended (s : Store) (σ : Backend) (r : UpsertRequest) (msg : String)
    (h1 : r.name ≠ "") (h2 : r.name ≠ s.trunk) (h3 : r.base = r.name) :
    ∃ σ2, s.update σ { upserts := [r], deletes := [], message := msg } = .ok σ2 ∧
      ∃ resp, s.lookup σ2 r.name = some resp ∧ resp.base = r.name := by
  have hm : (s.mergedState σ r).base.name = r.name := by
    unfold Store.mergedState
    simp only
    rw [if_neg (h3 ▸ h1), h3]
  have hap := s.applyUpsert_ok σ r h1 h2 (by rw [hm]; exact h1)
  rw [Store.update_single, hap]
  refine ⟨_, rfl, ?_⟩
  unfold Store.lookup
  rw [backendGet_update_two_self σ ⟨s.branchJSON r.name, s.mergedState σ r⟩ []]
  exact ⟨_, rfl, hm⟩

def rC4w : UpsertRequest := { name := "feat-a", base := "feat-a", baseHash := "h1" }

theorem c4_amended_witness :
    ∃ σ2, storeMain.update [] { upserts := [rC4w], deletes := [], message := "m" } = .ok σ2 ∧
      ∃ resp, storeMain.lookup σ2 rC4w.name = some resp ∧ resp.base = rC4w.name :=
  c4_amended storeMain [] rC4w "m" (by decide) (by decide) (by decide)

/-! ## Claim C5 -/

/-- Claim C5: every `UpdateRequest` containing an upsert whose name equals
the trunk branch fails, and nothing is written: the backend state is
unchanged, so no branch record for the trunk ever exists. -/
theorem c5_trunk_upsert_rejected (s : Store) (σ : Backend) (req : UpdateRequest)
    (h : ∃ r ∈ req.upserts, r.name = s.trunk) :
    (∃ e, s.update σ req = .error e) ∧ s.updatePost σ req = σ := by
  obtain ⟨r, hr, hname⟩ := h
  obtain ⟨e, he⟩ := exMap_error_of_mem (s.applyUpsert σ) req.upserts r hr
    (s.applyUpsert_trunk_error σ r hname)
  have hupd : s.update σ req = .error e := by
    unfold Store.update Store.updateSets
    rw [s.appendSets_eq σ req.upserts _, he]
  refine ⟨⟨e, hupd⟩, ?_⟩
  unfold Store.updatePost
  rw [hupd]

def reqC5 : UpdateRequest :=
  { upserts := [{ name := "feat-a", base := "main" }, { name := "main", base := "feat-a" }]
  , message := "m" }

theorem c5_witness :
    (∃ e, storeMain.update [] reqC5 = .error e) ∧ storeMain.updatePost [] reqC5 = [] :=
  c5_trunk_upsert_rejected storeMain [] reqC5 (by decide)

/-! ## Claim C6 -/

/-- Claim C6: round-trip and no-change semantics of a single-branch upsert.
If `r` names a branch already recorded in the backend, a successful update
followed by `Lookup` returns the record with exactly the fields `r`
provides overwritten and the omitted (empty / `none`) fields preserved.
If the branch is new and `r` provides a base, the lookup returns `r`'s
fields. A first-time upsert with an empty base fails. -/
theorem c6_upsert_roundtrip (s : Store) (σ : Backend) (r : UpsertRequest) (msg : String)
    (h1 : r.name ≠ "") (h2 : r.name ≠ s.trunk) :
    (∀ prev, backendGet σ (s.branchJSON r.name) = some prev →
      (if r.base = "" then prev.base.name else r.base) ≠ "" →
      ∃ σ2, s.update σ ⟨[r], [], msg⟩ = .ok σ2 ∧
        s.lookup σ2 r.name = some ⟨r.name,
          if r.base = "" then prev.base.name else r.base,
          if r.baseHash = "" then prev.base.hash else r.baseHash,
          match r.pr with | some n => n | none => prev.pr⟩) ∧
    (backendGet σ (s.branchJSON r.name) = none → r.base ≠ "" →
      ∃ σ2, s.update σ ⟨[r], [], msg⟩ = .ok σ2 ∧
        s.lookup σ2 r.name = some ⟨r.name, r.base, r.baseHash, r.pr.getD 0⟩) ∧
    (backendGet σ (s.branchJSON r.name) = none → r.base = "" →
      ∃ e, s.update σ ⟨[r], [], msg⟩ = .error e) := by
  refine ⟨?_, ?_, ?_⟩
  · intro prev hprev hbase
    have hl : s.lookup σ r.name = some ⟨r.name, prev.base.name, prev.base.hash, prev.pr⟩ := by
      unfold Store.lookup
      rw [hprev]
    have hm : s.mergedState σ r =
        ⟨⟨if r.base = "" then prev.base.name else r.base,
          if r.baseHash = "" then prev.base.hash else r.baseHash⟩,
          match r.pr with | some n => n | none => prev.pr⟩ := by
      unfold Store.mergedState
      rw [hl]
    have hap := s.applyUpsert_ok σ r h1 h2 (by rw [hm]; exact hbase)
    rw [Store.update_single, hap]
    refine ⟨_, rfl, ?_⟩
    unfold Store.lookup
    rw [backendGet_update_two_self σ ⟨s.branchJSON r.name, s.mergedState σ r⟩ [], hm]
  · intro hnone hbase
    have hl : s.lookup σ r.name = none := by
      unfold Store.lookup
      rw [hnone]
    have hm : s.mergedState σ r = ⟨⟨r.base, r.baseHash⟩, r.pr.getD 0⟩ := by
      unfold Store.mergedState
      rw [hl]
      cases hph : r.pr <;> by_cases hbh : r.baseHash = "" <;>
        simp [branchStateZero, hbase, hbh, Option.getD]
    have hap := s.applyUpsert_ok σ r h1 h2 (by rw [hm]; exact hbase)
    rw [Store.update_single, hap]
    refine ⟨_, rfl, ?_⟩
    unfold Store.lookup
    rw [backendGet_update_two_self σ ⟨s.branchJSON r.name, s.mergedState σ r⟩ [], hm]
  · intro hnone hbase
    have hl : s.lookup σ r.name = none := by
      unfold Store.lookup
      rw [hnone]
    have hm : (s.mergedState σ r).base.name = "" := by
      unfold Store.mergedState
      rw [hl]
      simp [branchStateZero, hbase]
    unfold Store.update Store.updateSets Store.appendSets
    unfold Store.applyUpsert
    rw [if_neg h1, if_neg h2, if_pos hm]
    exact ⟨_, rfl⟩

def σC6 : Backend := [("branches/feat-a", ⟨⟨"main", "h0"⟩, 41⟩)]

def rC6 : UpsertRequest := { name := "feat-a", baseHash := "h1" }

theorem c6_witness :
    (∀ prev, backendGet σC6 (storeMain.branchJSON rC6.name) = some prev →
      (if rC6.base = "" then prev.base.name else rC6.base) ≠ "" →
      ∃ σ2, storeMain.update σC6 ⟨[rC6], [], "m"⟩ = .ok σ2 ∧
        storeMain.lookup σ2 rC6.name = some ⟨rC6.name,
          if rC6.base = "" then prev.base.name else rC6.base,
          if rC6.baseHash = "" then prev.base.hash else rC6.baseHash,
          match rC6.pr with | some n => n | none => prev.pr⟩) ∧
    (backendGet σC6 (storeMain.branchJSON rC6.name) = none → rC6.base ≠ "" →
      ∃ σ2, storeMain.update σC6 ⟨[rC6], [], "m"⟩ = .ok σ2 ∧
        storeMain.lookup σ2 rC6.name = some ⟨rC6.name, rC6.base, rC6.baseHash, rC6.pr.getD 0⟩) ∧
    (backendGet σC6 (storeMain.branchJSON rC6.name) = none → rC6.base = "" →
      ∃ e, storeMain.update σC6 ⟨[rC6], [], "m"⟩ = .error e) :=
  c6_upsert_roundtrip storeMain σC6 rC6 "m" (by decide) (by decide)

/-! ## The richer branch store used by the commands in package main

`branch_submit.go` and `branch fold` use `internal/spice/state`, whose
records additionally carry the upstream branch name and the change-request
metadata. -/

/-- A branch record of the `spice/state` store. -/
structure BranchRec where
  base : String := ""
  baseHash : String := ""
  upstreamBranch : String := ""
  changeForge : String := ""
  changeMeta : String := ""
deriving DecidableEq, Repr

/-- An upsert request of the `spice/state` store. Empty fields mean "keep
the current value". -/
structure RUpsert where
  name : String
  base : String := ""
  baseHash : String := ""
  upstreamBranch : String := ""
  changeForge : String := ""
  changeMeta : String := ""
deriving DecidableEq, Repr

/-- An update request of the `spice/state` store (`UpdateRequest` with
`Upserts`, `Deletes`, `Message`). -/
structure RUpdateReq where
  upserts : List RUpsert := []
  deletes : List String := []
  message : String := ""
deriving DecidableEq, Repr

/-- The `spice/state` store content: branch records by name. -/
abbrev RStore := List (String × BranchRec)

def rstoreGet : RStore → String → Option BranchRec
  | [], _ => none
  | kv :: rest, k => if kv.1 = k then some kv.2 else rstoreGet rest k

def rstoreSet : RStore → String → BranchRec → RStore
  | [], k, v => [(k, v)]
  | kv :: rest, k, v => if kv.1 = k then (k, v) :: rest else kv :: rstoreSet rest k v

def rstoreDel : RStore → String → RStore
  | [], _ => []
  | kv :: rest, k => if kv.1 = k then rstoreDel rest k else kv :: rstoreDel rest k

/-- Modelled from the spec: the `spice/state` store's `UpdateBranch` is a
read-modify-write upsert where omitted (empty) fields preserve prior
values, as for the older store in store.go (spec section 4.2); the source
of this richer store is not among the provided files. -/
def applyRUpsert (prev : BranchRec) (u : RUpsert) : BranchRec :=
  { base := if u.base = "" then prev.base else u.base
  , baseHash := if u.baseHash = "" then prev.baseHash else u.baseHash
  , upstreamBranch := if u.upstreamBranch = "" then prev.upstreamBranch else u.upstreamBranch
  , changeForge := if u.changeForge = "" then prev.changeForge else u.changeForge
  , changeMeta := if u.changeMeta = "" then prev.changeMeta else u.changeMeta }

/-- One upsert step against the rich store. -/
def upStep (σ : RStore) (u : RUpsert) : RStore :=
  rstoreSet σ u.name (applyRUpsert ((rstoreGet σ u.name).getD {}) u)

/-- Modelled from the spec: one atomic `UpdateBranch` commit applies the
deletes and the upserts of the request (spec sections 4.1-4.2). -/
def rstoreApply (σ : RStore) (req : RUpdateReq) : RStore :=
  req.upserts.foldl upStep (req.deletes.foldl rstoreDel σ)

/-! ## Events: the externally visible calls of the commands -/

/-- Externally visible calls made by the commands, in order. -/
inductive Event where
  | push (refspec : String) (force : Bool) (lease : Option String) (ok : Bool)
  | submitChange (head : String) (base : String) (draft : Bool) (ok : Bool)
  | editChange (id : Nat) (base : String) (draft : Option Bool) (ok : Bool)
  | storeUpdate (req : RUpdateReq)
  | savePrepared (branch : String) (subject : String) (body : String)
  | clearPrepared (branch : String)
  | setUpstream (branch : String) (upstream : String)
  | fetch (refspec : String)
  | detachHead (ref : String)
  | gitCommit (message : String) (allowEmpty : Bool)
  | createBranch (name : String)
  | checkout (name : String)
  | deleteBranch (name : String)
  | oldStoreUpdate (req : UpdateRequest)
  | restackUpstack (branch : String)
deriving DecidableEq, Repr

def Event.isPush : Event → Bool
  | .push .. => true
  | _ => false

def Event.isSubmit : Event → Bool
  | .submitChange .. => true
  | _ => false

def Event.isEdit : Event → Bool
  | .editChange .. => true
  | _ => false

def Event.isForgeOrPush : Event → Bool
  | .push .. => true
  | .submitChange .. => true
  | .editChange .. => true
  | _ => false

def Event.isStoreUpdate : Event → Bool
  | .storeUpdate _ => true
  | _ => false

def Event.isOldStoreUpdate : Event → Bool
  | .oldStoreUpdate _ => true
  | _ => false

/-! ## The submit state machine (branch_submit.go, `branchSubmitCmd.run`) -/

/-- The flags of `branch submit` (`submitOptions` plus the command's own
fields). -/
structure SubmitCmd where
  dryRun : Bool := false
  fill : Bool := false
  draft : Option Bool := none
  noPublish : Bool := false
  force : Bool := false
  title : String := ""
  body : String := ""
  branch : String := ""

/-- `forge.FindChangeItem`: an existing change request as reported by the
forge. -/
structure ChangeItem where
  id : Nat
  url : String
  headHash : String
  baseName : String
  draft : Bool
deriving DecidableEq, Repr

/-- The result of `svc.LookupBranch`: the branch's base, its recorded
upstream branch name, and the recorded change id, if any. -/
structure BranchInfo where
  base : String
  upstreamBranch : String := ""
  change : Option Nat := none
deriving DecidableEq, Repr

/-- The outcome of `preparePublish`: the CR subject, body and draft flag
that were filled in (interactively or from commit messages). -/
structure PreparedInfo where
  subject : String := ""
  body : String := ""
  draft : Bool := false
deriving DecidableEq, Repr

/-- The environment of one `branch submit` invocation: the read-only
answers of the repository, the service and the forge, plus the success of
the fallible external calls. -/
structure SubmitEnv where
  trunk : String
  currentBranch : String
  remote : String := "origin"
  lookupBranch : String → Option BranchInfo
  restacked : String → Bool
  tip : String → Option String
  remoteTip : String → Option String
  findByBranch : String → List ChangeItem
  findByID : Nat → Option ChangeItem
  forgeID : String := "github"
  metaOf : Nat → String
  prepare : Option PreparedInfo := none
  pushOk : Bool := true
  editOk : Bool := true
  submitRes : Option Nat := none

instance exceptDecEq {ε α : Type} [DecidableEq ε] [DecidableEq α] :
    DecidableEq (Except ε α) := fun a b =>
  match a, b with
  | .ok x, .ok y =>
      if h : x = y then isTrue (by rw [h]) else isFalse (fun hh => h (by cases hh; rfl))
  | .ok _, .error _ => isFalse (fun hh => by cases hh)
  | .error _, .ok _ => isFalse (fun hh => by cases hh)
  | .error x, .error y =>
      if h : x = y then isTrue (by rw [h]) else isFalse (fun hh => h (by cases hh; rfl))

/-- The result of one invocation: its error status, the store content
afterwards, and the trace of externally visible calls. -/
structure SubmitOut where
  res : Except String Unit
  store : RStore
  events : List Event
deriving DecidableEq, Repr

/-- The branch targeted by the invocation: the `--branch` flag, defaulting
to the current branch. -/
def targetBranch (cmd : SubmitCmd) (env : SubmitEnv) : String :=
  if cmd.branch = "" then env.currentBranch else cmd.branch

/-- The upstream name used for pushes: the recorded upstream branch if
set, the branch name otherwise. -/
def upstreamNameFor (cmd : SubmitCmd) (env : SubmitEnv) (info : BranchInfo) : String :=
  if info.upstreamBranch ≠ "" then info.upstreamBranch else targetBranch cmd env

/-- The force-with-lease value of a push: absent under `--force`;
otherwise `upstream:hash` if the remote ref resolves, absent if not. -/
def leaseFor (cmd : SubmitCmd) (env : SubmitEnv) (up : String) : Option String :=
  if cmd.force then none
  else (env.remoteTip up).map (fun h => up ++ ":" ++ h)

/-- The store request of the adopt transition: associate the single open
change request found for the branch with its record. -/
def adoptReq (env : SubmitEnv) (branch : String) (c : ChangeItem) : RUpdateReq :=
  { upserts := [{ name := branch, changeForge := env.forgeID, changeMeta := env.metaOf c.id }]
  , message := branch ++ ": associate existing CR" }

/-- The deferred store request of the publish path, recording the upstream
branch name and, once obtained, the new change metadata. -/
def deferredReq (branch : String) (u : RUpsert) : RUpdateReq :=
  { upserts := [u], message := "branch submit " ++ branch }

/-- The `EditChange` step of the update path (branch_submit.go:393-402):
guarded by `len(updates) > 0`, which always holds there. -/
def submitEdit (cmd : SubmitCmd) (env : SubmitEnv) (σ : RStore) (base : String)
    (pull : ChangeItem) (ev : List Event) : SubmitOut :=
  let editEv := Event.editChange pull.id base cmd.draft env.editOk
  if env.editOk then ⟨.ok (), σ, ev ++ [editEv]⟩
  else ⟨.error "edit CR", σ, ev ++ [editEv]⟩

/-- The update path of the submit machine (branch_submit.go:339-405): an
existing change request `pull` is compared against the local state, and
push / edit calls are made as needed. -/
def submitExisting (cmd : SubmitCmd) (env : SubmitEnv) (σ : RStore) (base : String)
    (commitHash : String) (up : String) (ev0 : List Event) (pull : ChangeItem) : SubmitOut :=
  let updates : List String :=
    (if pull.headHash ≠ commitHash then ["push branch"] else [])
    ++ (if pull.baseName ≠ base then ["set base to " ++ base] else [])
    ++ (match cmd.draft with
        | some d => if pull.draft ≠ d then ["set draft"] else []
        | none => [])
  if updates.length = 0 then ⟨.ok (), σ, ev0⟩
  else if cmd.dryRun then ⟨.ok (), σ, ev0⟩
  else if pull.headHash ≠ commitHash then
    let pushEv := Event.push (commitHash ++ ":refs/heads/" ++ up) cmd.force
      (leaseFor cmd env up) env.pushOk
    if env.pushOk then submitEdit cmd env σ base pull (ev0 ++ [pushEv])
    else ⟨.error "push branch", σ, ev0 ++ [pushEv]⟩
  else submitEdit cmd env σ base pull ev0

/-- The publish step (`preparedBranch.Publish` plus the surrounding code
of the create path): call `SubmitChange`, clear the prepared branch on
success, and flush the deferred store update on every exit. -/
def submitPublish (env : SubmitEnv) (σ : RStore) (branch : String) (base : String)
    (p : PreparedInfo) (up : String) (ev : List Event) : SubmitOut :=
  match env.submitRes with
  | none =>
      let req := deferredReq branch { name := branch, upstreamBranch := up }
      ⟨.error "create change", rstoreApply σ req,
        ev ++ [Event.submitChange branch base p.draft false, Event.storeUpdate req]⟩
  | some newId =>
      let req := deferredReq branch
        { name := branch, upstreamBranch := up
        , changeForge := env.forgeID, changeMeta := env.metaOf newId }
      ⟨.ok (), rstoreApply σ req,
        ev ++ [Event.submitChange branch base p.draft true, Event.clearPrepared branch,
               Event.storeUpdate req]⟩

/-- The push of the create path (branch_submit.go:272-338): push the
branch, register the deferred store update, set the upstream, and publish
if a prepared branch exists. -/
def submitPush (prep : Option PreparedInfo) (cmd : SubmitCmd) (env : SubmitEnv) (σ : RStore)
    (branch : String) (base : String) (commitHash : String) (up : String)
    (ev : List Event) : SubmitOut :=
  let pushEv := Event.push (commitHash ++ ":refs/heads/" ++ up) cmd.force
    (leaseFor cmd env up) env.pushOk
  if env.pushOk then
    let ev2 := ev ++ [pushEv, Event.setUpstream branch (env.remote ++ "/" ++ branch)]
    match prep with
    | some p => submitPublish env σ branch base p up ev2
    | none =>
        let req := deferredReq branch { name := branch, upstreamBranch := up }
        ⟨.ok (), rstoreApply σ req, ev2 ++ [Event.storeUpdate req]⟩
  else ⟨.error "push branch", σ, ev ++ [pushEv]⟩

/-- The create path of the submit machine (branch_submit.go:245-338): no
change request exists; report under `--dry-run`, otherwise prepare (unless
`--no-publish`), push and publish. -/
def submitCreate (cmd : SubmitCmd) (env : SubmitEnv) (σ : RStore) (branch : String)
    (base : String) (commitHash : String) (up : String) (ev0 : List Event) : SubmitOut :=
  if cmd.dryRun then ⟨.ok (), σ, ev0⟩
  else if cmd.noPublish then
    submitPush none cmd env σ branch base commitHash up ev0
  else
    match env.prepare with
    | none => ⟨.error "prepare publish", σ, ev0⟩
    | some p =>
        submitPush (some p) cmd env σ branch base commitHash up
          (ev0 ++ [Event.savePrepared branch p.subject p.body])

/-- `branchSubmitCmd.run` (branch_submit.go:106-408). -/
def submitRun (cmd : SubmitCmd) (env : SubmitEnv) (σ : RStore) : SubmitOut :=
  if targetBranch cmd env = env.trunk then ⟨.error "cannot submit trunk", σ, []⟩
  else
    match env.lookupBranch (targetBranch cmd env) with
    | none => ⟨.error "lookup branch", σ, []⟩
    | some info =>
      if cmd.force = false ∧ env.restacked (targetBranch cmd env) = false then
        ⟨.error "refusing to submit outdated branch", σ, []⟩
      else
        match env.tip (targetBranch cmd env) with
        | none => ⟨.error "peel to commit", σ, []⟩
        | some commitHash =>
          match info.change with
          | some cid =>
            match env.findByID cid with
            | none => ⟨.error "find change", σ, []⟩
            | some pull =>
              submitExisting cmd env σ info.base commitHash
                (upstreamNameFor cmd env info) [] pull
          | none =>
            match env.findByBranch (upstreamNameFor cmd env info) with
            | [] =>
              submitCreate cmd env σ (targetBranch cmd env) info.base commitHash
                (upstreamNameFor cmd env info) []
            | [c] =>
              submitExisting cmd env
                (rstoreApply σ (adoptReq env (targetBranch cmd env) c)) info.base commitHash
                (upstreamNameFor cmd env info)
                [Event.storeUpdate (adoptReq env (targetBranch cmd env) c)] c
            | _ :: _ :: _ => ⟨.error "multiple open change requests", σ, []⟩

/-! ### Frame lemmas for the submit paths -/

theorem submitExisting_dryRun (cmd : SubmitCmd) (env : SubmitEnv) (σ : RStore) (base : String)
    (ch : String) (up : String) (ev0 : List Event) (pull : ChangeItem)
    (h : cmd.dryRun = true) :
    submitExisting cmd env σ base ch up ev0 pull = ⟨.ok (), σ, ev0⟩ := by
  unfold submitExisting
  rw [h]
  simp

theorem submitCreate_dryRun (cmd : SubmitCmd) (env : SubmitEnv) (σ : RStore) (branch : String)
    (base : String) (ch : String) (up : String) (ev0 : List Event)
    (h : cmd.dryRun = true) :
    submitCreate cmd env σ branch base ch up ev0 = ⟨.ok (), σ, ev0⟩ := by
  unfold submitCreate
  rw [h]
  rfl

theorem submitExisting_no_store (cmd : SubmitCmd) (env : SubmitEnv) (σ : RStore) (base : String)
    (ch : String) (up : String) (ev0 : List Event) (pull : ChangeItem) :
    (submitExisting cmd env σ base ch up ev0 pull).store = σ ∧
    (submitExisting cmd env σ base ch up ev0 pull).events.filter Event.isStoreUpdate
      = ev0.filter Event.isStoreUpdate := by
  unfold submitExisting submitEdit
  repeat' split
  all_goals simp [List.filter_append, Event.isStoreUpdate]

/-! ## Claim C1 -/

def cmdDry : SubmitCmd := { dryRun := true }

def pullC1 : ChangeItem := ⟨1, "url1", "h1", "main", false⟩

def envC1 : SubmitEnv :=
  { trunk := "main", currentBranch := "feat-a"
  , lookupBranch := fun n => if n = "feat-a" then some { base := "main" } else none
  , restacked := fun _ => true
  , tip := fun n => if n = "feat-a" then some "h1" else none
  , remoteTip := fun _ => none
  , findByBranch := fun n => if n = "feat-a" then [pullC1] else []
  , findByID := fun _ => none
  , metaOf := fun _ => "meta1" }

/-- Claim C1 counterexample: a dry-run `branch submit` on a tracked branch
with no recorded change ref and exactly one open remote change request for
its upstream name writes the adopt upsert to the store, so the store state
after the invocation differs from the store state before it. -/
theorem c1_counterexample :
    cmdDry.dryRun = true ∧
    (submitRun cmdDry envC1 []).res = .ok () ∧
    (submitRun cmdDry envC1 []).store ≠ ([] : RStore) ∧
    (submitRun cmdDry envC1 []).events = [Event.storeUpdate (adoptReq envC1 "feat-a" pullC1)] := by
  refine ⟨rfl, by decide, by decide, by decide⟩

/-- Claim C1 (amended): a dry-run invocation makes no push, `submitChange`
or `editChange` call, and performs no store write except in the adopt
case: when the targeted branch's record has no change ref and the forge
search for its upstream name returns exactly one open change request, the
single store write is the adopt upsert (which happens even under
dry-run); in every other case the store is unchanged and no external call
is made at all. -/
theorem c1_amended (cmd : SubmitCmd) (env : SubmitEnv) (σ : RStore) (h : cmd.dryRun = true) :
    (submitRun cmd env σ).events.filter Event.isForgeOrPush = [] ∧
    (((submitRun cmd env σ).events = [] ∧ (submitRun cmd env σ).store = σ) ∨
      (∃ info c, env.lookupBranch (targetBranch cmd env) = some info ∧ info.change = none ∧
        env.findByBranch (upstreamNameFor cmd env info) = [c] ∧
        (submitRun cmd env σ).events =
          [Event.storeUpdate (adoptReq env (targetBranch cmd env) c)] ∧
        (submitRun cmd env σ).store = rstoreApply σ (adoptReq env (targetBranch cmd env) c))) := by
  unfold submitRun
  split
  · exact ⟨rfl, Or.inl ⟨rfl, rfl⟩⟩
  · split
    · exact ⟨rfl, Or.inl ⟨rfl, rfl⟩⟩
    · next info hl =>
      split
      · exact ⟨rfl, Or.inl ⟨rfl, rfl⟩⟩
      · split
        · exact ⟨rfl, Or.inl ⟨rfl, rfl⟩⟩
        · next commitHash ht =>
          split
          · next cid hc =>
            split
            · exact ⟨rfl, Or.inl ⟨rfl, rfl⟩⟩
            · next pull hf =>
              rw [submitExisting_dryRun cmd env σ info.base commitHash
                (upstreamNameFor cmd env info) [] pull h]
              exact ⟨rfl, Or.inl ⟨rfl, rfl⟩⟩
          · next hc =>
            split
            · next hfb =>
              rw [submitCreate_dryRun cmd env σ (targetBranch cmd env) info.base commitHash
                (upstreamNameFor cmd env info) [] h]
              exact ⟨rfl, Or.inl ⟨rfl, rfl⟩⟩
            · next c hfb =>
              rw [submitExisting_dryRun cmd env
                (rstoreApply σ (adoptReq env (targetBranch cmd env) c)) info.base commitHash
                (upstreamNameFor cmd env info)
                [Event.storeUpdate (adoptReq env (targetBranch cmd env) c)] c h]
              exact ⟨rfl, Or.inr ⟨info, c, hl, hc, hfb, rfl, rfl⟩⟩
            · exact ⟨rfl, Or.inl ⟨rfl, rfl⟩⟩

theorem c1_amended_witness :
    (submitRun cmdDry envC1 []).events.filter Event.isForgeOrPush = [] ∧
    (((submitRun cmdDry envC1 []).events = [] ∧ (submitRun cmdDry envC1 []).store = []) ∨
      (∃ info c, envC1.lookupBranch (targetBranch cmdDry envC1) = some info ∧ info.change = none ∧
        envC1.findByBranch (upstreamNameFor cmdDry envC1 info) = [c] ∧
        (submitRun cmdDry envC1 []).events =
          [Event.storeUpdate (adoptReq envC1 (targetBranch cmdDry envC1) c)] ∧
        (submitRun cmdDry envC1 []).store =
          rstoreApply [] (adoptReq envC1 (targetBranch cmdDry envC1) c))) :=
  c1_amended cmdDry envC1 [] rfl

/-! ## Claim C2 -/

def pullC2 : ChangeItem := ⟨7, "url7", "h1", "main", false⟩

def envC2 : SubmitEnv :=
  { trunk := "main", currentBranch := "feat-a"
  , lookupBranch := fun n => if n = "feat-a" then some { base := "main", change := some 7 } else none
  , restacked := fun _ => true
  , tip := fun n => if n = "feat-a" then some "h2" else none
  , remoteTip := fun n => if n = "feat-a" then some "h1" else none
  , findByBranch := fun _ => []
  , findByID := fun i => if i = 7 then some pullC2 else none
  , metaOf := fun _ => "meta7" }

/-- Claim C2 evaluation at the failing input: a branch with an existing
change request whose head hash differs from the local tip while the base
is unchanged and no draft flag is given. The run performs exactly one push
with force-with-lease — and then one `editChange` call, because the call
at branch_submit.go:393-402 is guarded only by `len(updates) > 0`, which
is always true at that point. The claim (and spec scenario S5) requires
zero `editChange` calls here. -/
theorem c2_code_bug_eval :
    (submitRun { } envC2 []).res = .ok () ∧
    (submitRun { } envC2 []).events =
      [Event.push "h2:refs/heads/feat-a" false (some "feat-a:h1") true,
       Event.editChange 7 "main" none true] ∧
    ((submitRun { } envC2 []).events.filter Event.isPush).length = 1 ∧
    ((submitRun { } envC2 []).events.filter Event.isEdit).length = 1 := by
  refine ⟨by decide, by decide, by decide, by decide⟩

/-! ## Claim C7 -/

theorem rstoreGet_set_self (σ : RStore) (k : String) (v : BranchRec) :
    rstoreGet (rstoreSet σ k v) k = some v := by
  induction σ with
  | nil => simp [rstoreSet, rstoreGet]
  | cons kv rest ih =>
    by_cases h : kv.1 = k
    · simp [rstoreSet, rstoreGet, h]
    · simp [rstoreSet, rstoreGet, h, ih]

theorem rstoreGet_set_other (σ : RStore) (k : String) (v : BranchRec) (k2 : String)
    (h : k2 ≠ k) :
    rstoreGet (rstoreSet σ k v) k2 = rstoreGet σ k2 := by
  induction σ with
  | nil =>
    simp only [rstoreSet, rstoreGet]
    rw [if_neg (fun hk => h hk.symm)]
  | cons kv rest ih =>
    by_cases hk : kv.1 = k
    · simp only [rstoreSet, if_pos hk, rstoreGet]
      have hne : kv.1 ≠ k2 := by rw [hk]; exact fun hh => h hh.symm
      rw [if_neg (fun hh => h hh.symm), if_neg hne]
    · simp only [rstoreSet, if_neg hk]
      by_cases hkv : kv.1 = k2
      · simp [rstoreGet, hkv]
      · simp [rstoreGet, hkv, ih]

/-- The record seen after a single-upsert store update with no deletes. -/
theorem rstoreApply_single_get (σ : RStore) (u : RUpsert) (msg : String) :
    rstoreGet (rstoreApply σ { upserts := [u], message := msg }) u.name =
      some (applyRUpsert ((rstoreGet σ u.name).getD {}) u) := by
  unfold rstoreApply upStep
  simp only [List.foldl]
  exact rstoreGet_set_self σ u.name _

/-- Claim C7: in a successful run on a tracked branch whose record has no
change ref, when the forge search for the upstream name returns exactly
one open change request, the adopt transition upserts that change
request's marshalled metadata into the branch's store record — and this
is the only store write of the run; when the record already has a change
ref, the run performs no store write at all. -/
theorem c7_adopt (cmd : SubmitCmd) (env : SubmitEnv) (σ : RStore) (info : BranchInfo)
    (hinfo : env.lookupBranch (targetBranch cmd env) = some info)
    (hok : (submitRun cmd env σ).res = .ok ())
    (hforge : env.forgeID ≠ "") :
    (∀ c, info.change = none → env.findByBranch (upstreamNameFor cmd env info) = [c] →
      env.metaOf c.id ≠ "" →
      (submitRun cmd env σ).events.filter Event.isStoreUpdate =
        [Event.storeUpdate (adoptReq env (targetBranch cmd env) c)] ∧
      ∃ rec, rstoreGet (submitRun cmd env σ).store (targetBranch cmd env) = some rec ∧
        rec.changeForge = env.forgeID ∧ rec.changeMeta = env.metaOf c.id) ∧
    (info.change ≠ none →
      (submitRun cmd env σ).events.filter Event.isStoreUpdate = []) := by
  revert hok
  unfold submitRun
  split
  · intro hok; cases hok
  · split
    · intro hok; cases hok
    · next info2 hl =>
      rw [hl] at hinfo
      cases hinfo
      split
      · intro hok; cases hok
      · split
        · intro hok; cases hok
        · next commitHash ht =>
          split
          · next cid hc =>
            split
            · intro hok; cases hok
            · next pull hf =>
              intro hok
              refine ⟨?_, ?_⟩
              · intro c hnone
                rw [hc] at hnone
                cases hnone
              · intro hchange
                exact (submitExisting_no_store cmd env σ info.base commitHash
                  (upstreamNameFor cmd env info) [] pull).2
          · next hc =>
            split
            · next hfb =>
              intro hok
              refine ⟨?_, ?_⟩
              · intro c hnone hfb2
                rw [hfb] at hfb2
                cases hfb2
              · intro hchange
                exact absurd hc hchange
            · next c hfb =>
              intro hok
              refine ⟨?_, ?_⟩
              · intro c2 hnone hfb2 hmeta
                rw [hfb] at hfb2
                cases hfb2
                obtain ⟨hst, hev⟩ := submitExisting_no_store cmd env
                  (rstoreApply σ (adoptReq env (targetBranch cmd env) c)) info.base commitHash
                  (upstreamNameFor cmd env info)
                  [Event.storeUpdate (adoptReq env (targetBranch cmd env) c)] c
                refine ⟨?_, ?_⟩
                · rw [hev]
                  rfl
                · rw [hst]
                  exact ⟨_, rstoreApply_single_get σ
                      { name := targetBranch cmd env, changeForge := env.forgeID
                      , changeMeta := env.metaOf c.id }
                      (targetBranch cmd env ++ ": associate existing CR"),
                    by simp [applyRUpsert, hforge], by simp [applyRUpsert, hmeta]⟩
              · intro hchange
                exact absurd hc hchange
            · intro hok; cases hok

def cmdPlain : SubmitCmd := {}

def infoC7 : BranchInfo := { base := "main" }

theorem c7_witness :
    (∀ c, infoC7.change = none →
      envC1.findByBranch (upstreamNameFor cmdPlain envC1 infoC7) = [c] →
      envC1.metaOf c.id ≠ "" →
      (submitRun cmdPlain envC1 []).events.filter Event.isStoreUpdate =
        [Event.storeUpdate (adoptReq envC1 (targetBranch cmdPlain envC1) c)] ∧
      ∃ rec, rstoreGet (submitRun cmdPlain envC1 []).store (targetBranch cmdPlain envC1) = some rec ∧
        rec.changeForge = envC1.forgeID ∧ rec.changeMeta = envC1.metaOf c.id) ∧
    (infoC7.change ≠ none →
      (submitRun cmdPlain envC1 []).events.filter Event.isStoreUpdate = []) :=
  c7_adopt cmdPlain envC1 [] infoC7 (by decide) (by decide) (by decide)

/-! ## Claim C8 -/

theorem submitExisting_no_submit (cmd : SubmitCmd) (env : SubmitEnv) (σ : RStore) (base : String)
    (ch : String) (up : String) (ev0 : List Event) (pull : ChangeItem) :
    (submitExisting cmd env σ base ch up ev0 pull).events.any Event.isSubmit
      = ev0.any Event.isSubmit := by
  unfold submitExisting submitEdit
  repeat' split
  all_goals simp [List.any_append, Event.isSubmit]

/-- Shape of the create path when a `submitChange` call is observed: the
trace begins with saving the prepared branch, a successful push, the
upstream setting and the `submitChange` call, and ends with the deferred
store update whose upsert records the pushed upstream name. -/
theorem submitCreate_shape (cmd : SubmitCmd) (env : SubmitEnv) (σ : RStore)
    (branch base ch up : String)
    (hsub : (submitCreate cmd env σ branch base ch up []).events.any Event.isSubmit = true) :
    ∃ (p : PreparedInfo) (ok : Bool) (tail : List Event) (u : RUpsert),
      (submitCreate cmd env σ branch base ch up []).events =
        [Event.savePrepared branch p.subject p.body,
         Event.push (ch ++ ":refs/heads/" ++ up) cmd.force (leaseFor cmd env up) true,
         Event.setUpstream branch (env.remote ++ "/" ++ branch),
         Event.submitChange branch base p.draft ok] ++ tail ∧
      (submitCreate cmd env σ branch base ch up []).events.getLast? =
        some (Event.storeUpdate (deferredReq branch u)) ∧
      u.name = branch ∧ u.upstreamBranch = up := by
  revert hsub
  unfold submitCreate submitPush submitPublish
  split
  · intro hsub; cases hsub
  · split
    · split
      · intro hsub
        simp [List.any_append, Event.isSubmit] at hsub
      · intro hsub
        simp [List.any_append, Event.isSubmit] at hsub
    · split
      · intro hsub; cases hsub
      · next p hp =>
        split
        · next hpok =>
          split
          · next p2 hp2 =>
            injection hp2 with hp2e
            subst hp2e
            split
            · next hres =>
              intro hsub
              refine ⟨p, false, [Event.storeUpdate (deferredReq branch
                { name := branch, upstreamBranch := up })],
                { name := branch, upstreamBranch := up }, ?_, ?_, rfl, rfl⟩
              · simp [hpok]
              · rfl
            · next newId hres =>
              intro hsub
              refine ⟨p, true, [Event.clearPrepared branch,
                Event.storeUpdate (deferredReq branch
                  { name := branch, upstreamBranch := up
                  , changeForge := env.forgeID, changeMeta := env.metaOf newId })],
                { name := branch, upstreamBranch := up
                , changeForge := env.forgeID, changeMeta := env.metaOf newId }, ?_, ?_, rfl, rfl⟩
              · simp [hpok]
              · rfl
          · next hp2 => cases hp2
        · intro hsub
          simp [List.any_append, Event.isSubmit] at hsub

/-- Claim C8: whenever `submitChange` is called during a `branch submit`
invocation, a successful push of the branch occurred strictly earlier in
the same invocation, and the final (deferred) store write of the
invocation records `upstream_branch` equal to the upstream name used in
the push refspec. -/
theorem c8_publish_ordering (cmd : SubmitCmd) (env : SubmitEnv) (σ : RStore)
    (hsub : (submitRun cmd env σ).events.any Event.isSubmit = true) :
    ∃ (branch base commitHash : String) (p : PreparedInfo) (ok : Bool) (tail : List Event)
      (u : RUpsert),
      (submitRun cmd env σ).events =
        [Event.savePrepared branch p.subject p.body,
         Event.push (commitHash ++ ":refs/heads/" ++ u.upstreamBranch) cmd.force
           (leaseFor cmd env u.upstreamBranch) true,
         Event.setUpstream branch (env.remote ++ "/" ++ branch),
         Event.submitChange branch base p.draft ok] ++ tail ∧
      (submitRun cmd env σ).events.getLast? =
        some (Event.storeUpdate (deferredReq branch u)) ∧
      u.name = branch := by
  revert hsub
  unfold submitRun
  split
  · intro hsub; cases hsub
  · split
    · intro hsub; cases hsub
    · next info hl =>
      split
      · intro hsub; cases hsub
      · split
        · intro hsub; cases hsub
        · next commitHash ht =>
          split
          · next cid hc =>
            split
            · intro hsub; cases hsub
            · next pull hf =>
              intro hsub
              rw [submitExisting_no_submit] at hsub
              cases hsub
          · next hc =>
            split
            · next hfb =>
              intro hsub
              obtain ⟨p, ok, tail, u, hev, hlast, hname, hup⟩ :=
                submitCreate_shape cmd env σ (targetBranch cmd env) info.base commitHash
                  (upstreamNameFor cmd env info) hsub
              exact ⟨targetBranch cmd env, info.base, commitHash, p, ok, tail, u,
                by rw [hev, hup], by rw [hlast], hname⟩
            · next c hfb =>
              intro hsub
              rw [submitExisting_no_submit] at hsub
              cases hsub
            · intro hsub; cases hsub

def envC8 : SubmitEnv :=
  { trunk := "main", currentBranch := "feat-a"
  , lookupBranch := fun n => if n = "feat-a" then some { base := "main" } else none
  , restacked := fun _ => true
  , tip := fun n => if n = "feat-a" then some "h2" else none
  , remoteTip := fun _ => none
  , findByBranch := fun _ => []
  , findByID := fun _ => none
  , metaOf := fun i => if i = 9 then "meta9" else ""
  , prepare := some { subject := "t", body := "b" }
  , submitRes := some 9 }

theorem c8_witness :
    ∃ (branch base commitHash : String) (p : PreparedInfo) (ok : Bool) (tail : List Event)
      (u : RUpsert),
      (submitRun cmdPlain envC8 []).events =
        [Event.savePrepared branch p.subject p.body,
         Event.push (commitHash ++ ":refs/heads/" ++ u.upstreamBranch) cmdPlain.force
           (leaseFor cmdPlain envC8 u.upstreamBranch) true,
         Event.setUpstream branch (envC8.remote ++ "/" ++ branch),
         Event.submitChange branch base p.draft ok] ++ tail ∧
      (submitRun cmdPlain envC8 []).events.getLast? =
        some (Event.storeUpdate (deferredReq branch u)) ∧
      u.name = branch :=
  c8_publish_ordering cmdPlain envC8 [] (by decide)

/-! ## Branch fold (`branchFoldCmd.Run`) -/

/-- Modelled from the spec: `svc.ListAbove` returns the branches whose
recorded base is the given branch (spec section 4.3, `children(b)`); the
service implementation is not among the provided sources. -/
def listAbove (σ : RStore) (b : String) : List String :=
  (σ.filter (fun kv => kv.2.base = b)).map (fun kv => kv.1)

/-- The outcome of `verify_restacked`, matching the error cases the fold
command distinguishes. -/
inductive VerifyResult where
  | clean
  | notTracked
  | needsRestack
  | otherErr
deriving DecidableEq, Repr

/-- The environment of a `branch fold` invocation. -/
structure FoldEnv where
  currentBranch : String
  forkPoint : String → String → Option String

/-- Modelled from the spec: `svc.VerifyRestacked` demands that the actual
fork-point between the branch and its recorded base equal the stored base
hash (spec section 4.3); the service implementation is not among the
provided sources. -/
def verifyRestacked (env : FoldEnv) (σ : RStore) (b : String) : VerifyResult :=
  match rstoreGet σ b with
  | none => .notTracked
  | some rec =>
    match env.forkPoint b rec.base with
    | none => .otherErr
    | some h => if h = rec.baseHash then .clean else .needsRestack

/-- Git branch tips by branch name. -/
abbrev Tips := List (String × String)

def tipsGet : Tips → String → Option String
  | [], _ => none
  | kv :: rest, k => if kv.1 = k then some kv.2 else tipsGet rest k

def tipsSet : Tips → String → String → Tips
  | [], k, v => [(k, v)]
  | kv :: rest, k, v => if kv.1 = k then (k, v) :: rest else kv :: tipsSet rest k v

/-- The outcome of a `branch fold` invocation. -/
structure FoldOut where
  res : Except String Unit
  store : RStore
  tips : Tips
  events : List Event
deriving DecidableEq, Repr

/-- The branch targeted by `branch fold`: the `--branch` flag, defaulting
to the current branch. -/
def foldTarget (branchArg : String) (env : FoldEnv) : String :=
  if branchArg = "" then env.currentBranch else branchArg

/-- The store request committed by a successful fold: every branch
directly above the folded branch is reparented onto the folded branch's
base at the new tip, and the folded branch's record is deleted, all in
the same update. -/
def foldReq (σ : RStore) (branch : String) (base : String) (newTip : String) : RUpdateReq :=
  { upserts := (listAbove σ branch).map
      (fun x => { name := x, base := base, baseHash := newTip })
  , deletes := [branch]
  , message := "folding " ++ branch ++ " into " ++ base }

/-- `branchFoldCmd.Run` (branch fold): verify the branch is restacked,
fast-forward the base to the branch tip via a local fetch, commit one
atomic store update reparenting the branches above and deleting the
folded record, then check out the base and delete the git branch. -/
def foldRun (branchArg : String) (env : FoldEnv) (σ : RStore) (tips : Tips) : FoldOut :=
  match verifyRestacked env σ (foldTarget branchArg env) with
  | .notTracked => ⟨.error "branch not tracked", σ, tips, []⟩
  | .needsRestack => ⟨.error "needs to be restacked before it can be folded", σ, tips, []⟩
  | .otherErr => ⟨.error "verify restacked", σ, tips, []⟩
  | .clean =>
    match rstoreGet σ (foldTarget branchArg env) with
    | none => ⟨.error "get branch", σ, tips, []⟩
    | some b =>
      match tipsGet tips (foldTarget branchArg env) with
      | none => ⟨.error "update base branch", σ, tips, []⟩
      | some newTip =>
        ⟨.ok (),
         rstoreApply σ (foldReq σ (foldTarget branchArg env) b.base newTip),
         tipsSet tips b.base newTip,
         [Event.fetch (foldTarget branchArg env ++ ":" ++ b.base),
          Event.storeUpdate (foldReq σ (foldTarget branchArg env) b.base newTip),
          Event.checkout b.base,
          Event.deleteBranch (foldTarget branchArg env)]⟩

/-! ### Rich-store lemmas for fold -/

theorem rstoreGet_del_self (σ : RStore) (k : String) : rstoreGet (rstoreDel σ k) k = none := by
  induction σ with
  | nil => rfl
  | cons kv rest ih =>
    by_cases h : kv.1 = k
    · simp [rstoreDel, h, ih]
    · simp [rstoreDel, rstoreGet, h, ih]

theorem tipsGet_set_self (tips : Tips) (k : String) (v : String) :
    tipsGet (tipsSet tips k v) k = some v := by
  induction tips with
  | nil => simp [tipsSet, tipsGet]
  | cons kv rest ih =>
    by_cases h : kv.1 = k
    · simp [tipsSet, tipsGet, h]
    · simp [tipsSet, tipsGet, h, ih]

theorem rstoreGet_foldl_upStep_not_mem :
    ∀ (us : List RUpsert) (σ : RStore) (x : String),
      (∀ u ∈ us, u.name ≠ x) →
      rstoreGet (us.foldl upStep σ) x = rstoreGet σ x := by
  intro us
  induction us with
  | nil => intro σ x _; rfl
  | cons u rest ih =>
    intro σ x h
    simp only [List.foldl]
    rw [ih (upStep σ u) x (fun u2 hu2 => h u2 (List.mem_cons_of_mem u hu2))]
    exact rstoreGet_set_other σ u.name _ x (Ne.symm (h u (List.mem_cons_self u rest)))

theorem rstoreGet_foldl_upStep_mem :
    ∀ (us : List RUpsert) (σ : RStore) (x : String) (b0 h0 : String),
      b0 ≠ "" → h0 ≠ "" →
      (∃ u ∈ us, u.name = x) →
      (∀ u ∈ us, u.name = x → u.base = b0 ∧ u.baseHash = h0) →
      ∃ r, rstoreGet (us.foldl upStep σ) x = some r ∧ r.base = b0 ∧ r.baseHash = h0 := by
  intro us
  induction us with
  | nil =>
    intro σ x b0 h0 _ _ hx _
    obtain ⟨u, hu, _⟩ := hx
    cases hu
  | cons u rest ih =>
    intro σ x b0 h0 hb0 hh0 hx hall
    simp only [List.foldl]
    by_cases hu : u.name = x
    · obtain ⟨hub, huh⟩ := hall u (List.mem_cons_self u rest) hu
      by_cases hrest : ∃ u2 ∈ rest, u2.name = x
      · exact ih (upStep σ u) x b0 h0 hb0 hh0 hrest
          (fun u2 hu2 => hall u2 (List.mem_cons_of_mem u hu2))
      · have hnone : ∀ u2 ∈ rest, u2.name ≠ x := by
          intro u2 hu2 hu2x
          exact hrest ⟨u2, hu2, hu2x⟩
        rw [rstoreGet_foldl_upStep_not_mem rest (upStep σ u) x hnone]
        refine ⟨applyRUpsert ((rstoreGet σ u.name).getD {}) u, ?_, ?_, ?_⟩
        · unfold upStep
          rw [hu]
          rw [← hu]
          exact rstoreGet_set_self σ u.name _
        · simp [applyRUpsert, hub, hb0]
        · simp [applyRUpsert, huh, hh0]
    · have hx2 : ∃ u2 ∈ rest, u2.name = x := by
        obtain ⟨u2, hu2, hu2x⟩ := hx
        cases hu2 with
        | head => exact absurd hu2x hu
        | tail _ h => exact ⟨u2, h, hu2x⟩
      exact ih (upStep σ u) x b0 h0 hb0 hh0 hx2
        (fun u2 hu2 => hall u2 (List.mem_cons_of_mem u hu2))

/-! ## Claim C9 -/

/-- Claim C9: `branch fold` succeeds only when `verify_restacked` is clean
(a needs-restack result refuses and changes nothing), and on success it
performs one atomic store update that reparents every branch directly
above the folded branch onto its base with the base's new tip as the
base hash, and deletes the folded branch's record in that same update. -/
theorem c9_fold (branchArg : String) (env : FoldEnv) (σ : RStore) (tips : Tips)
    (rec : BranchRec) (newTip : String)
    (hget : rstoreGet σ (foldTarget branchArg env) = some rec)
    (htips : tipsGet tips (foldTarget branchArg env) = some newTip)
    (hbase : rec.base ≠ "") (hhash : newTip ≠ "")
    (hnotmem : foldTarget branchArg env ∉ listAbove σ (foldTarget branchArg env)) :
    ((foldRun branchArg env σ tips).res = .ok () →
      verifyRestacked env σ (foldTarget branchArg env) = .clean) ∧
    (verifyRestacked env σ (foldTarget branchArg env) = .needsRestack →
      (foldRun branchArg env σ tips).res =
        .error "needs to be restacked before it can be folded" ∧
      (foldRun branchArg env σ tips).store = σ ∧
      (foldRun branchArg env σ tips).tips = tips ∧
      (foldRun branchArg env σ tips).events = []) ∧
    (verifyRestacked env σ (foldTarget branchArg env) = .clean →
      (foldRun branchArg env σ tips).res = .ok () ∧
      (foldRun branchArg env σ tips).events.filter Event.isStoreUpdate =
        [Event.storeUpdate (foldReq σ (foldTarget branchArg env) rec.base newTip)] ∧
      rstoreGet (foldRun branchArg env σ tips).store (foldTarget branchArg env) = none ∧
      (∀ x ∈ listAbove σ (foldTarget branchArg env),
        ∃ r2, rstoreGet (foldRun branchArg env σ tips).store x = some r2 ∧
          r2.base = rec.base ∧ r2.baseHash = newTip) ∧
      tipsGet (foldRun branchArg env σ tips).tips rec.base = some newTip) := by
  unfold foldRun
  split
  · next heq =>
    refine ⟨?_, ?_, ?_⟩
    · intro h; cases h
    · intro hn; rw [heq] at hn; cases hn
    · intro hcl; rw [heq] at hcl; cases hcl
  · next heq =>
    refine ⟨?_, ?_, ?_⟩
    · intro h; cases h
    · intro _; exact ⟨rfl, rfl, rfl, rfl⟩
    · intro hcl; rw [heq] at hcl; cases hcl
  · next heq =>
    refine ⟨?_, ?_, ?_⟩
    · intro h; cases h
    · intro hn; rw [heq] at hn; cases hn
    · intro hcl; rw [heq] at hcl; cases hcl
  · next heq =>
    split
    · next hg =>
      rw [hg] at hget
      cases hget
    · next b hg =>
      rw [hg] at hget
      injection hget with hrec
      subst hrec
      split
      · next htg =>
        rw [htg] at htips
        cases htips
      · next nt htg =>
        rw [htg] at htips
        injection htips with hnt
        subst hnt
        refine ⟨fun _ => heq, ?_, ?_⟩
        · intro hn; rw [heq] at hn; cases hn
        · intro _
          refine ⟨rfl, by simp [Event.isStoreUpdate], ?_, ?_, ?_⟩
          · unfold rstoreApply foldReq
            simp only [List.foldl]
            rw [rstoreGet_foldl_upStep_not_mem _ _ _ ?_]
            · exact rstoreGet_del_self σ _
            · intro u hu
              simp only [List.mem_map] at hu
              obtain ⟨x, hx, hux⟩ := hu
              rw [← hux]
              intro hxx
              exact hnotmem (hxx ▸ hx)
          · intro x hx
            unfold rstoreApply foldReq
            simp only [List.foldl]
            apply rstoreGet_foldl_upStep_mem _ _ x b.base nt hbase hhash
            · exact ⟨{ name := x, base := b.base, baseHash := nt },
                List.mem_map_of_mem _ hx, rfl⟩
            · intro u hu hux
              simp only [List.mem_map] at hu
              obtain ⟨y, hy, huy⟩ := hu
              rw [← huy]
              exact ⟨rfl, rfl⟩
          · exact tipsGet_set_self tips b.base nt

def envC9 : FoldEnv :=
  { currentBranch := "feat-a"
  , forkPoint := fun b base => if b = "feat-a" then (if base = "main" then some "h0" else none) else none }

def recC9 : BranchRec := { base := "main", baseHash := "h0" }

def σC9 : RStore := [("feat-a", recC9), ("feat-b", { base := "feat-a", baseHash := "ha" })]

def tipsC9 : Tips := [("feat-a", "ha2"), ("main", "h0")]

theorem c9_witness :
    (foldRun "" envC9 σC9 tipsC9).res = .ok () ∧
    (foldRun "" envC9 σC9 tipsC9).events.filter Event.isStoreUpdate =
      [Event.storeUpdate (foldReq σC9 (foldTarget "" envC9) recC9.base "ha2")] ∧
    rstoreGet (foldRun "" envC9 σC9 tipsC9).store (foldTarget "" envC9) = none ∧
    (∃ r2, rstoreGet (foldRun "" envC9 σC9 tipsC9).store "feat-b" = some r2 ∧
      r2.base = recC9.base ∧ r2.baseHash = "ha2") ∧
    tipsGet (foldRun "" envC9 σC9 tipsC9).tips recC9.base = some "ha2" := by
  have h := c9_fold "" envC9 σC9 tipsC9 recC9 "ha2"
    (by decide) (by decide) (by decide) (by decide) (by decide)
  have hm := h.2.2 (by decide)
  exact ⟨hm.1, hm.2.1, hm.2.2.1, hm.2.2.2.1 "feat-b" (by decide), hm.2.2.2.2⟩

/-! ## Branch create (`branchCreateCmd.Run`) -/

/-- The flags of `branch create`. -/
structure CreateCmd where
  name : String := ""
  insert : Bool := false
  below : Bool := false
  message : String := ""

/-- The environment of one `branch create` invocation: the current branch
and commit, whether the index diff against HEAD is empty, and the result
of `svc.ListAbove` for the current branch (used by `--insert`). -/
structure CreateEnv where
  currentBranch : String
  headTip : String
  diffEmpty : Bool
  aboves : List String := []

/-- The outcome of one `branch create` invocation. This command uses the
older store of store.go, so the state is a `Backend` snapshot. -/
structure CreateOut where
  res : Except String Unit
  backend : Backend
  events : List Event
deriving DecidableEq, Repr

/-- The commit message of the state update of `branch create`. -/
def createMsg (cmd : CreateCmd) (baseName : String) : String :=
  if cmd.below then "insert branch " ++ cmd.name ++ " below " ++ baseName
  else if cmd.insert then "insert branch " ++ cmd.name ++ " above " ++ baseName
  else "create branch " ++ cmd.name

/-- The single store update of `branch create`: the new branch with its
base, then one upsert per reparented branch with the new branch as base. -/
def createReq (cmd : CreateCmd) (baseName : String) (baseHash : String)
    (restackOntoNew : List String) : UpdateRequest :=
  { upserts := ⟨cmd.name, baseName, baseHash, none⟩ ::
      restackOntoNew.map (fun br => ⟨br, cmd.name, "", none⟩)
  , message := createMsg cmd baseName }

/-- The git events of `branch create` up to the store update. -/
def createEvs (cmd : CreateCmd) (env : CreateEnv) (baseName : String) : List Event :=
  [Event.detachHead baseName,
   Event.gitCommit cmd.message env.diffEmpty,
   Event.createBranch cmd.name,
   Event.checkout cmd.name]

/-- The tail of `branchCreateCmd.Run` once base and reparent set are
resolved: detach, commit, create and check out the branch, commit the one
atomic store update, and trigger the upstack restack for `--below` and
`--insert`. The `oldStoreUpdate` event records the committed update. -/
def createFinish (cmd : CreateCmd) (env : CreateEnv) (s : Store) (σ : Backend)
    (baseName : String) (baseHash : String) (restackOntoNew : List String) : CreateOut :=
  match s.update σ (createReq cmd baseName baseHash restackOntoNew) with
  | .error e => ⟨.error ("update state: " ++ e), σ, createEvs cmd env baseName⟩
  | .ok σ2 =>
    if cmd.below ∨ cmd.insert then
      ⟨.ok (), σ2, createEvs cmd env baseName ++
        [Event.oldStoreUpdate (createReq cmd baseName baseHash restackOntoNew),
         Event.restackUpstack cmd.name]⟩
    else
      ⟨.ok (), σ2, createEvs cmd env baseName ++
        [Event.oldStoreUpdate (createReq cmd baseName baseHash restackOntoNew)]⟩

/-- `branchCreateCmd.Run`: resolve the base and the branches to restack
according to the mode, refusing `--below` from the trunk or from an
untracked current branch. -/
def createRun (cmd : CreateCmd) (env : CreateEnv) (s : Store) (σ : Backend) : CreateOut :=
  if cmd.name = "" then ⟨.error "branch name is required", σ, []⟩
  else if cmd.below then
    if env.currentBranch = s.trunk then
      ⟨.error "below cannot be used from trunk", σ, []⟩
    else
      match s.lookup σ env.currentBranch with
      | none => ⟨.error "branch not tracked", σ, []⟩
      | some b => createFinish cmd env s σ b.base b.baseHash [env.currentBranch]
  else if cmd.insert then
    createFinish cmd env s σ env.currentBranch env.headTip env.aboves
  else
    createFinish cmd env s σ env.currentBranch env.headTip []

theorem Store.update_pair (s : Store) (σ : Backend) (r1 r2 : UpsertRequest)
    (dels : List String) (msg : String) (sr1 sr2 : setRequest)
    (h1 : s.applyUpsert σ r1 = .ok sr1) (h2 : s.applyUpsert σ r2 = .ok sr2) :
    s.update σ ⟨[r1, r2], dels, msg⟩ =
      .ok (backendUpdate σ [zeroSetRequest, zeroSetRequest, sr1, sr2] dels) := by
  unfold Store.update Store.updateSets Store.appendSets
  simp [List.replicate, h1, h2, Store.appendSets]

theorem createFinish_ok (cmd : CreateCmd) (env : CreateEnv) (s : Store) (σ : Backend)
    (baseName : String) (baseHash : String) (restackOntoNew : List String) (σ2 : Backend)
    (hupd : s.update σ (createReq cmd baseName baseHash restackOntoNew) = .ok σ2)
    (hbelow : cmd.below = true) :
    createFinish cmd env s σ baseName baseHash restackOntoNew =
      ⟨.ok (), σ2, createEvs cmd env baseName ++
        [Event.oldStoreUpdate (createReq cmd baseName baseHash restackOntoNew),
         Event.restackUpstack cmd.name]⟩ := by
  unfold createFinish
  rw [hupd, hbelow]
  simp

/-! ## Claim C10 -/

/-- Claim C10: `branch create --below` from current branch `C` fails when
`C` is the trunk or `C` has no store record; otherwise the new branch is
recorded with `base = C.base` and `base_hash = C.base_hash`, and `C` is
re-recorded with the new branch as base, in one atomic store update,
after which the upstack restack is triggered. -/
theorem c10_create_below (cmd : CreateCmd) (env : CreateEnv) (s : Store) (σ : Backend)
    (hbelow : cmd.below = true) (hname : cmd.name ≠ "") (hcur : env.currentBranch ≠ "") :
    (env.currentBranch = s.trunk →
      (createRun cmd env s σ).res = .error "below cannot be used from trunk" ∧
      (createRun cmd env s σ).backend = σ ∧ (createRun cmd env s σ).events = []) ∧
    (env.currentBranch ≠ s.trunk → s.lookup σ env.currentBranch = none →
      (createRun cmd env s σ).res = .error "branch not tracked" ∧
      (createRun cmd env s σ).backend = σ ∧ (createRun cmd env s σ).events = []) ∧
    (∀ b, env.currentBranch ≠ s.trunk → s.lookup σ env.currentBranch = some b →
      cmd.name ≠ s.trunk → cmd.name ≠ env.currentBranch → b.base ≠ "" →
      backendGet σ (s.branchJSON cmd.name) = none →
      (createRun cmd env s σ).res = .ok () ∧
      (createRun cmd env s σ).events =
        [Event.detachHead b.base,
         Event.gitCommit cmd.message env.diffEmpty,
         Event.createBranch cmd.name,
         Event.checkout cmd.name,
         Event.oldStoreUpdate (createReq cmd b.base b.baseHash [env.currentBranch]),
         Event.restackUpstack cmd.name] ∧
      s.lookup (createRun cmd env s σ).backend cmd.name =
        some ⟨cmd.name, b.base, b.baseHash, 0⟩ ∧
      s.lookup (createRun cmd env s σ).backend env.currentBranch =
        some ⟨env.currentBranch, cmd.name, b.baseHash, b.pr⟩) := by
  unfold createRun
  rw [if_neg hname, hbelow]
  simp only [if_true]
  by_cases hcur2 : env.currentBranch = s.trunk
  · rw [if_pos hcur2]
    refine ⟨fun _ => ⟨rfl, rfl, rfl⟩, ?_, ?_⟩
    · intro hc _; exact absurd hcur2 hc
    · intro b hc _ _ _ _ _; exact absurd hcur2 hc
  · rw [if_neg hcur2]
    split
    · next hlook0 =>
      refine ⟨fun hc => absurd hc hcur2, fun _ _ => ⟨rfl, rfl, rfl⟩, ?_⟩
      intro b _ hlook _ _ _ _
      rw [hlook0] at hlook
      cases hlook
    · next b0 hlook0 =>
      refine ⟨fun hc => absurd hc hcur2, ?_, ?_⟩
      · intro _ hlook
        rw [hlook0] at hlook
        cases hlook
      · intro b _ hlook hnt hnc hbase hfresh
        rw [hlook0] at hlook
        injection hlook with hb
        subst hb
        have hlnone : s.lookup σ cmd.name = none := by
          unfold Store.lookup
          rw [hfresh]
        have hm1 : s.mergedState σ ⟨cmd.name, b0.base, b0.baseHash, none⟩ =
            ⟨⟨b0.base, b0.baseHash⟩, 0⟩ := by
          unfold Store.mergedState
          rw [hlnone]
          by_cases hbh : b0.baseHash = "" <;> simp [branchStateZero, hbase, hbh]
        have hap1 : s.applyUpsert σ ⟨cmd.name, b0.base, b0.baseHash, none⟩ =
            .ok ⟨s.branchJSON cmd.name, ⟨⟨b0.base, b0.baseHash⟩, 0⟩⟩ := by
          rw [s.applyUpsert_ok σ _ hname hnt (by rw [hm1]; exact hbase), hm1]
        have hm2 : s.mergedState σ ⟨env.currentBranch, cmd.name, "", none⟩ =
            ⟨⟨cmd.name, b0.baseHash⟩, b0.pr⟩ := by
          unfold Store.mergedState
          rw [hlook0]
          simp [hname]
        have hap2 : s.applyUpsert σ ⟨env.currentBranch, cmd.name, "", none⟩ =
            .ok ⟨s.branchJSON env.currentBranch, ⟨⟨cmd.name, b0.baseHash⟩, b0.pr⟩⟩ := by
          rw [s.applyUpsert_ok σ _ hcur hcur2 (by rw [hm2]; exact hname), hm2]
        have hreq : createReq cmd b0.base b0.baseHash [env.currentBranch] =
            ⟨[⟨cmd.name, b0.base, b0.baseHash, none⟩, ⟨env.currentBranch, cmd.name, "", none⟩],
             [], createMsg cmd b0.base⟩ := rfl
        have hupd : s.update σ (createReq cmd b0.base b0.baseHash [env.currentBranch]) =
            .ok (backendUpdate σ
              [zeroSetRequest, zeroSetRequest,
               ⟨s.branchJSON cmd.name, ⟨⟨b0.base, b0.baseHash⟩, 0⟩⟩,
               ⟨s.branchJSON env.currentBranch, ⟨⟨cmd.name, b0.baseHash⟩, b0.pr⟩⟩] []) := by
          rw [hreq]
          exact Store.update_pair s σ _ _ [] (createMsg cmd b0.base) _ _ hap1 hap2
        rw [createFinish_ok cmd env s σ b0.base b0.baseHash [env.currentBranch] _ hupd hbelow]
        have hkey : s.branchJSON cmd.name ≠ s.branchJSON env.currentBranch :=
          fun h => hnc (branchJSON_inj s cmd.name env.currentBranch hname hcur h)
        refine ⟨rfl, rfl, ?_, ?_⟩
        · unfold Store.lookup
          unfold backendUpdate
          simp only [List.foldl]
          rw [backendGet_set_other _
            ⟨s.branchJSON env.currentBranch, ⟨⟨cmd.name, b0.baseHash⟩, b0.pr⟩⟩
            (s.branchJSON cmd.name) hkey]
          rw [backendGet_set_self _ ⟨s.branchJSON cmd.name, ⟨⟨b0.base, b0.baseHash⟩, 0⟩⟩]
        · unfold Store.lookup
          unfold backendUpdate
          simp only [List.foldl]
          rw [backendGet_set_self _
            ⟨s.branchJSON env.currentBranch, ⟨⟨cmd.name, b0.baseHash⟩, b0.pr⟩⟩]

def cmdC10 : CreateCmd := { name := "feat-mid", below := true, message := "x" }

def envC10 : CreateEnv := { currentBranch := "feat-b", headTip := "hb", diffEmpty := true }

def σC10 : Backend := [("branches/feat-b", ⟨⟨"feat-a", "Ha"⟩, 5⟩)]

theorem c10_witness :
    (createRun cmdC10 envC10 storeMain σC10).res = .ok () ∧
    (createRun cmdC10 envC10 storeMain σC10).events =
      [Event.detachHead "feat-a",
       Event.gitCommit "x" true,
       Event.createBranch "feat-mid",
       Event.checkout "feat-mid",
       Event.oldStoreUpdate (createReq cmdC10 "feat-a" "Ha" ["feat-b"]),
       Event.restackUpstack "feat-mid"] ∧
    storeMain.lookup (createRun cmdC10 envC10 storeMain σC10).backend "feat-mid" =
      some ⟨"feat-mid", "feat-a", "Ha", 0⟩ ∧
    storeMain.lookup (createRun cmdC10 envC10 storeMain σC10).backend "feat-b" =
      some ⟨"feat-b", "feat-mid", "Ha", 5⟩ := by
  have h := c10_create_below cmdC10 envC10 storeMain σC10 rfl (by decide) (by decide)
  exact h.2.2 ⟨"feat-b", "feat-a", "Ha", 5⟩ (by decide) (by decide) (by decide)
    (by decide) (by decide) (by decide)

end GitSpice
